import Mathlib

set_option maxRecDepth 40000

/-!
Shallow embedding of `generate_products.py`.

The script's SKU generator uses CPython's `random.Random(seed)`, which is the
MT19937 Mersenne Twister seeded through `init_by_array`.  We model that RNG
exactly (32-bit arithmetic carried out on `Nat` with explicit reduction
modulo 2^32), and then model `generate_sku` and the collision-repair loop of
`main` on top of it.
-/

/-- Reduction modulo 2^32: all Mersenne Twister arithmetic is on `uint32_t`. -/
def u32 (x : Nat) : Nat := x % 4294967296

/-- Strictness combinator: semantically the identity (see `sNat_eq`), it only
forces `n` to a numeral during kernel reduction so that long generator chains
evaluate with constant stack depth. -/
def sNat {α : Sort u} (n : Nat) (f : Nat → α) : α :=
  match n with
  | 0 => f 0
  | m + 1 => f (m + 1)

/-- Output tempering of MT19937 (`genrand_uint32`). -/
def temper (y : Nat) : Nat :=
  let y1 := y ^^^ (y >>> 11)
  let y2 := y1 ^^^ ((y1 <<< 7) &&& 0x9d2c5680)
  let y3 := y2 ^^^ ((y2 <<< 15) &&& 0xefc60000)
  y3 ^^^ (y3 >>> 18)

/-- One recurrence step of the MT19937 twist: combines the upper bit of
`mt[kk]` with the lower bits of `mt[kk+1]` and the twist matrix. -/
def twistVal (a b : Nat) : Nat :=
  let y := (a &&& 0x80000000) ||| (b &&& 0x7fffffff)
  (y >>> 1) ^^^ (if y % 2 = 1 then 0x9908b0df else 0)

/-- Three-way zip used to compute the first 227 entries of a twist. -/
def zipW3 (f : Nat → Nat → Nat → Nat) : List Nat → List Nat → List Nat → List Nat
  | a :: as_, b :: bs, c :: cs => f a b c :: zipW3 f as_ bs cs
  | _, _, _ => []

/-- Entries 227..622 of a twist.  Entry `kk` reads the already-regenerated
entry `kk - 227`; we realise that with a queue that dequeues the new entries
in production order while enqueuing each freshly produced one. -/
def twistFeed : List Nat → List (Nat × Nat) → List Nat
  | _, [] => []
  | [], _ :: _ => []
  | f :: fr, (a, b) :: rest =>
    sNat (f ^^^ twistVal a b) fun v =>
      v :: twistFeed (fr ++ [v]) rest

/-- Full MT19937 state regeneration (the `mti >= N` branch of
`genrand_uint32`), for a state list of length 624. -/
def twist (mt : List Nat) : List Nat :=
  let part1 := zipW3 (fun c a b => c ^^^ twistVal a b) (mt.drop 397) (mt.take 227) (mt.drop 1)
  let pairs := (mt.drop 227).zip (mt.drop 228)
  let part2 := twistFeed part1 pairs
  let m0 := part1.getD 0 0
  let m396 := (part1 ++ part2).getD 396 0
  let last := m396 ^^^ twistVal (mt.getD 623 0) m0
  part1 ++ part2 ++ [last]

/-- Mersenne Twister state: the 624-word vector and the read index. -/
structure MTState where
  mt : List Nat
  mti : Nat
  deriving Repr, DecidableEq

/-- `genrand_uint32`: twist if the vector is exhausted, then temper one word. -/
def genrand (s : MTState) : Nat × MTState :=
  let st := if 624 ≤ s.mti then ⟨twist s.mt, 0⟩ else s
  (temper (st.mt.getD st.mti 0), ⟨st.mt, st.mti + 1⟩)

/-- `init_genrand`: mt[0] := s; mt[i] := u32(1812433253 * (mt[i-1] ^ (mt[i-1] >> 30)) + i). -/
def initGenrandAux (x i : Nat) : Nat → List Nat
  | 0 => []
  | c + 1 =>
    sNat (u32 (1812433253 * (x ^^^ (x >>> 30)) + i)) fun y =>
      y :: initGenrandAux y (i + 1) c

def init_genrand (s : Nat) : List Nat := u32 s :: initGenrandAux (u32 s) 1 623

/-!
`init_by_array` walks the state cyclically starting at position 1.  We keep
the state as `(pre, suf)` with `mt = pre.reverse ++ suf`; the next position to
update is the head of `suf`, and the head of `pre` is the freshly written
previous entry.  On wraparound the C code sets `mt[0] := mt[623]` and
restarts at position 1.
-/

/-- First `init_by_array` pass (uses the seed key). `k` counts remaining
iterations, `j` is the key index. -/
def ibaPass1 (key : List Nat) : Nat → Nat → List Nat → List Nat → List Nat × List Nat
  | 0, _, pre, suf => (pre, suf)
  | k + 1, j, pre, suf =>
    match suf, pre with
    | c :: rest, p :: _ =>
      sNat (u32 ((c ^^^ u32 ((p ^^^ (p >>> 30)) * 1664525)) + key.getD j 0 + j)) fun v =>
        let j2 := if key.length ≤ j + 1 then 0 else j + 1
        match rest with
        | [] => ibaPass1 key k j2 [v] ((v :: pre).reverse.drop 1)
        | _ => ibaPass1 key k j2 (v :: pre) rest
    | _, _ => (pre, suf)

/-- Second `init_by_array` pass (subtracts the position index `i`, which is
the length of `pre`). -/
def ibaPass2 : Nat → List Nat → List Nat → List Nat × List Nat
  | 0, pre, suf => (pre, suf)
  | k + 1, pre, suf =>
    match suf, pre with
    | c :: rest, p :: _ =>
      let i := pre.length
      sNat (u32 ((c ^^^ u32 ((p ^^^ (p >>> 30)) * 1566083941)) + (4294967296 - i))) fun v =>
        match rest with
        | [] => ibaPass2 k [v] ((v :: pre).reverse.drop 1)
        | _ => ibaPass2 k (v :: pre) rest
    | _, _ => (pre, suf)

/-- `init_by_array`: seed the state from a key vector, exactly as in
CPython's `_randommodule.c`. -/
def seedFromKey (key : List Nat) : MTState :=
  match init_genrand 19650218 with
  | [] => ⟨[], 624⟩
  | h :: t =>
    let s1 := ibaPass1 key (max 624 key.length) 0 [h] t
    let s2 := ibaPass2 623 s1.1 s1.2
    let mtFinal := s2.1.reverse ++ s2.2
    ⟨0x80000000 :: mtFinal.drop 1, 624⟩

/-- Little-endian base-2^32 digits of a seed, `[0]` for zero: this is how
CPython's `random_seed` splits an int seed into the `init_by_array` key. -/
def toKeyAux : Nat → Nat → List Nat
  | 0, s => [u32 s]
  | f + 1, s => if s < 4294967296 then [s] else u32 s :: toKeyAux f (s / 4294967296)

def toKey (s : Nat) : List Nat := toKeyAux s s

/-- `random.Random(s)` for a non-negative int seed `s`. -/
def seedMT (s : Nat) : MTState := seedFromKey (toKey s)

/-- Bit length of a natural number (`int.bit_length` in Python). -/
def bitLenAux : Nat → Nat → Nat
  | 0, _ => 0
  | f + 1, n => if n = 0 then 0 else bitLenAux f (n / 2) + 1

def bitLen (n : Nat) : Nat := bitLenAux n n

/-- `Random.getrandbits(k)`: composed from 32-bit words, little-endian, the
final word truncated to the remaining bits.  Fuel `k` always suffices. -/
def getrandbitsAux : Nat → MTState → Nat → Nat × MTState
  | 0, st, _ => (0, st)
  | f + 1, st, k =>
    let r := genrand st
    if k ≤ 32 then (r.1 >>> (32 - k), r.2)
    else
      let rest := getrandbitsAux f r.2 (k - 32)
      (r.1 + rest.1 * 4294967296, rest.2)

def getrandbits (st : MTState) (k : Nat) : Nat × MTState := getrandbitsAux k st k

/-- Rejection loop of `Random._randbelow_with_getrandbits`, with fuel. -/
def randbelowAux (n k : Nat) : Nat → MTState → Option (Nat × MTState)
  | 0, _ => none
  | f + 1, st =>
    let r := getrandbits st k
    if r.1 < n then some (r.1, r.2) else randbelowAux n k f r.2

/-- Draw budget for the rejection loop: far beyond anything reachable in
practice; a draw is rejected with probability below 1/2. -/
def randFuel : Nat := 64

/-- `Random._randbelow(n)`: draw `bitLen n` bits until the value is below `n`. -/
def randbelow (st : MTState) (n : Nat) : Option (Nat × MTState) :=
  if n = 0 then none else randbelowAux n (bitLen n) randFuel st

/-- `Random.randint(a, b)` = `randrange(a, b+1)` = `a + _randbelow(b - a + 1)`. -/
def pyRandint (st : MTState) (a b : Nat) : Option (Nat × MTState) :=
  if b + 1 ≤ a then none
  else (randbelow st (b + 1 - a)).map (fun r => (a + r.1, r.2))

/-- `Random.choice(seq)` = `seq[self._randbelow(len(seq))]`. -/
def pyChoice (st : MTState) (l : List Char) : Option (Char × MTState) :=
  match randbelow st l.length with
  | none => none
  | some (i, st2) => (l.get? i).map (fun c => (c, st2))

/-!
String helpers mirroring the Python string operations the script uses:
`str(int)`, f-string zero padding (`{:05d}`, `{:04d}`), `str.split(sep)` and
`int(str)`.
-/

/-- The decimal digit character for `n < 10`. -/
def digitChar (n : Nat) : Char := Char.ofNat (48 + n)

/-- Decimal digits of a natural number, most significant first.  The fuel
argument (first) always suffices when it is at least the number itself. -/
def natDigitsAux : Nat → Nat → List Char
  | 0, n => [digitChar n]
  | f + 1, n => if n < 10 then [digitChar n] else natDigitsAux f (n / 10) ++ [digitChar (n % 10)]

/-- `str(n)` for a natural number. -/
def natToStr (n : Nat) : String := ⟨natDigitsAux n n⟩

/-- `str(i)` for an integer. -/
def intToStr (i : Int) : String :=
  if i < 0 then "-" ++ natToStr i.natAbs else natToStr i.natAbs

/-- Left-pad with `'0'` to width `w` (the body of `{:0wd}` for non-negative
values). -/
def zpad (w : Nat) (s : String) : String :=
  (⟨List.replicate (w - s.length) '0'⟩ : String) ++ s

/-- Python `f"{n:05d}"`: zero-pad to total width 5, the sign included. -/
def pyFormat05 (n : Int) : String :=
  if n < 0 then "-" ++ zpad 4 (natToStr n.natAbs) else zpad 5 (natToStr n.natAbs)

def isDigitCh (c : Char) : Bool := decide ('0' ≤ c) && decide (c ≤ '9')

def digitVal (c : Char) : Nat := c.toNat - 48

/-- Value of a non-empty all-digit character list, `none` otherwise. -/
def parseDigits (l : List Char) : Option Nat :=
  if l = [] then none
  else if l.all isDigitCh then some (l.foldl (fun a c => a * 10 + digitVal c) 0)
  else none

/-- Strip leading and trailing spaces (the whitespace `int()` tolerates). -/
def pyStrip (l : List Char) : List Char :=
  ((l.dropWhile (· = ' ')).reverse.dropWhile (· = ' ')).reverse

/-- Python `int(s)`: optional sign followed by decimal digits; a `ValueError`
is modelled as `none`. -/
def pyInt (s : String) : Option Int :=
  match pyStrip s.data with
  | [] => none
  | c :: rest =>
    if c = '-' then (parseDigits rest).map (fun n => -(Int.ofNat n))
    else if c = '+' then (parseDigits rest).map (fun n => Int.ofNat n)
    else (parseDigits (c :: rest)).map (fun n => Int.ofNat n)

/-- Python `str.split(sep)` for a one-character separator, on char lists:
always returns a non-empty list of (possibly empty) segments. -/
def pySplitCh (sep : Char) : List Char → List (List Char)
  | [] => [[]]
  | c :: r =>
    if c = sep then [] :: pySplitCh sep r
    else
      match pySplitCh sep r with
      | [] => [[c]]
      | g :: gs => (c :: g) :: gs

/-- Python `s.split(sep)` on strings. -/
def pySplit (sep : Char) (s : String) : List String :=
  (pySplitCh sep s.data).map (fun l => ⟨l⟩)

/-!
The SKU generator (`generate_sku` in `generate_products.py`).
-/

def letters : String := "ABCDEFGHIJKLMNOPQRSTUVWXYZ"

/-- `''.join(rng.choice(letters) for _ in range(n))`: `n` sequential draws. -/
def chooseN : Nat → MTState → Option (List Char × MTState)
  | 0, st => some ([], st)
  | n + 1, st =>
    match pyChoice st letters.data with
    | none => none
    | some (c, st2) =>
      match chooseN n st2 with
      | none => none
      | some (cs, st3) => some (c :: cs, st3)

/-- The Numeric branch of `generate_sku` (`sku_type == 0`): a random digit
count in [6,10], then a uniform value of that many digits. -/
def genNumeric (rng : MTState) : Option String :=
  match pyRandint rng 6 10 with
  | none => none
  | some (num_digits, st1) =>
    let min_value := 10 ^ (num_digits - 1)
    let max_value := 10 ^ num_digits - 1
    match pyRandint st1 min_value max_value with
    | none => none
    | some (v, _) => some (natToStr v)

/-- The Alphanumeric branch of `generate_sku` (`sku_type == 1`): a random
3-letter prefix, a `-`, and a zero-padded random 5-digit number. -/
def genAlnum (rng : MTState) : Option String :=
  match chooseN 3 rng with
  | none => none
  | some (pfx, st1) =>
    match pyRandint st1 10000 99999 with
    | none => none
    | some (num_part, _) =>
      some ((⟨pfx⟩ : String) ++ "-" ++ pyFormat05 (num_part : Int))

/-- The AlphanumericSpecial branch of `generate_sku` (`sku_type == 2`):
prefix, four numeric draws, a pattern index, then one of ten f-string
layouts (with their extra draws evaluated left to right). -/
def genSpecial (rng : MTState) : Option String := do
  let (plen, st1) ← pyRandint rng 1 4
  let (pfxChars, st2) ← chooseN plen st1
  let pfx : String := ⟨pfxChars⟩
  let (num1, st3) ← pyRandint st2 100 9999
  let (num2, st4) ← pyRandint st3 100 9999
  let (num3, st5) ← pyRandint st4 10 999
  let (num4, st6) ← pyRandint st5 10 99
  let (ptype, st7) ← pyRandint st6 0 9
  if ptype = 0 then
    let (c1, st8) ← pyChoice st7 letters.data
    let (c2, _) ← pyChoice st8 letters.data
    pure (pfx ++ "-" ++ natToStr num1 ++ "-" ++ natToStr num2 ++ "  #" ++
      String.singleton c1 ++ String.singleton c2 ++ "s" ++ natToStr num3)
  else if ptype = 1 then
    pure (pfx ++ "#" ++ natToStr num1 ++ "-" ++ natToStr num2 ++ "-" ++ natToStr num3)
  else if ptype = 2 then
    pure (pfx ++ "_" ++ natToStr num1 ++ "-" ++ natToStr num2 ++ "@" ++ natToStr num3)
  else if ptype = 3 then
    let (c1, st8) ← pyChoice st7 letters.data
    let (c2, st9) ← pyChoice st8 letters.data
    let (d, _) ← pyRandint st9 1 9
    pure (pfx ++ " - " ++ natToStr num1 ++ " - " ++ natToStr num2 ++ "  #" ++
      String.singleton c1 ++ String.singleton c2 ++ "s" ++ natToStr num3 ++ "L" ++ natToStr d)
  else if ptype = 4 then
    pure (pfx ++ "-" ++ natToStr num1 ++ "#" ++ natToStr num2 ++ "-" ++ natToStr num3)
  else if ptype = 5 then
    pure (pfx ++ "_" ++ natToStr num1 ++ "_" ++ natToStr num2 ++ "-" ++ natToStr num3)
  else if ptype = 6 then
    pure (pfx ++ "@" ++ natToStr num1 ++ "_" ++ natToStr num2 ++ "#" ++ natToStr num3)
  else if ptype = 7 then
    let (c1, st8) ← pyChoice st7 letters.data
    let (c2, _) ← pyChoice st8 letters.data
    pure (pfx ++ "-" ++ natToStr num1 ++ " - " ++ natToStr num2 ++ "  #" ++
      String.singleton c1 ++ String.singleton c2 ++ "s" ++ natToStr num3)
  else if ptype = 8 then
    pure (pfx ++ "#" ++ natToStr num1 ++ "_" ++ natToStr num2 ++ "-" ++ natToStr num3 ++
      "@" ++ natToStr num4)
  else
    let (c1, st8) ← pyChoice st7 letters.data
    let (d, _) ← pyRandint st8 1 9
    pure (pfx ++ "-" ++ natToStr num1 ++ "_" ++ natToStr num2 ++ "  #" ++
      String.singleton c1 ++ "s" ++ natToStr num3 ++ "L" ++ natToStr d)

/-- `generate_sku(sku_type, index, global_seed)`.  Each call computes
`occurrence = (index - 1) // 3 + 1` and builds a fresh
`random.Random(occurrence * 1000 + global_seed)`; the three branches follow
the source line by line.  `none` models an uncaught exception or an
exhausted rejection-sampling budget (unreachable in practice). -/
def generate_sku (sku_type : Nat) (index : Nat) (global_seed : Nat) : Option String :=
  let occurrence := (index - 1) / 3 + 1
  let seed := occurrence * 1000 + global_seed
  let rng := seedMT seed
  if sku_type = 0 then genNumeric rng
  else if sku_type = 1 then genAlnum rng
  else genSpecial rng

/-!
The uniqueness-repair loop of `main` (lines 206-223 of the script).
-/

/-- One mutation of the original candidate, for collision counter value
`counter` (the body of `while sku in seen_skus`).  `none` models the
uncaught `IndexError`/`ValueError` when the style-specific split/parse
assumption fails. -/
def mutate (sku_type : Nat) (original_sku : String) (counter : Nat) : Option String :=
  if sku_type = 0 then
    some (original_sku ++ "-" ++ natToStr counter)
  else if sku_type = 1 then
    match (pySplit '-' original_sku).get? 0, (pySplit '-' original_sku).get? 1 with
    | some base_sku, some p1 =>
      (pyInt p1).map (fun n => base_sku ++ "-" ++ pyFormat05 (n + (counter : Int)))
    | _, _ => none
  else
    match (pySplit 'L' original_sku).get? 0, (pySplit 'L' original_sku).get? 1 with
    | some p0, some p1 =>
      (pyInt p1).map (fun n => p0 ++ "L" ++ intToStr (n + (counter : Int)))
    | _, _ => none

/-- The `while sku in seen_skus` loop, with fuel.  The counter increments
before every mutation; every attempt is re-checked against the full issued
set. -/
def repairLoop (sku_type : Nat) (original_sku : String) (issued : Finset String) :
    Nat → Nat → String → Option String
  | 0, _, sku => if sku ∈ issued then none else some sku
  | fuel + 1, counter, sku =>
    if sku ∈ issued then
      match mutate sku_type original_sku (counter + 1) with
      | none => none
      | some sku2 => repairLoop sku_type original_sku issued fuel (counter + 1) sku2
    else some sku

/-- Collision repair of a fresh candidate against the issued set. -/
def repair (sku_type : Nat) (cand : String) (issued : Finset String) (fuel : Nat) :
    Option String :=
  repairLoop sku_type cand issued fuel 0 cand

/-!
The row template and the generation loop of `main`.
-/

def header : List String :=
  ["fulfilmentclient", "sku", "barcode", "product_name", "product_type",
   "product_price", "product_width", "product_height", "product_length",
   "product_weight", "product_volume", "product_size", "total_stock",
   "free_stock", "cycling_stock", "anticipation_stock", "backordered_stock",
   "total_inventory_value", "next_expiration_date",
   "stock_expiring_in_30_days", "expired_stock"]

/-- `base_row` from `main`: the 21-entry template, parameterised by the two
configurable fields. -/
def base_row (fulfilmentclient total_stock : String) : List String :=
  [fulfilmentclient, "", "", "", "product", "100", "", "", "", "0", "0", "",
   total_stock, "1886", "2088", "1", "202", "0", "", "0", "0"]

/-- `row = base_row.copy(); row[1] = sku; row[3] = f"Generated Product {i:04d}"`. -/
def mkRow (fc ts sku : String) (i : Nat) : List String :=
  ((base_row fc ts).set 1 sku).set 3 ("Generated Product " ++ zpad 4 (natToStr i))

/-- The generation loop of `main`: `n` remaining iterations, `i` the current
1-based row index, `seen` the issued set.  The repair fuel `seen.card + 1`
provably suffices whenever the Python while-loop terminates (see the
termination theorems below), so `none` exactly models a crash of the loop. -/
def genRowsAux (fc ts : String) (seed : Nat) : Nat → Nat → Finset String → Option (List (List String))
  | 0, _, _ => some []
  | n + 1, i, seen =>
    match generate_sku ((i - 1) % 3) i seed with
    | none => none
    | some cand =>
      match repair ((i - 1) % 3) cand seen (seen.card + 1) with
      | none => none
      | some sku =>
        match genRowsAux fc ts seed n (i + 1) (insert sku seen) with
        | none => none
        | some rest => some (mkRow fc ts sku i :: rest)

/-- All data rows for a requested row count (an `int`, possibly
non-positive: `range(1, num_rows + 1)` then iterates zero times). -/
def genRows (num_rows : Int) (fc ts : String) (seed : Nat) : Option (List (List String)) :=
  genRowsAux fc ts seed num_rows.toNat 1 ∅

/-- The full CSV contents `main` writes: header line plus all data rows. -/
def main_output (num_rows : Int) (fc ts : String) (seed : Nat) : Option (List (List String)) :=
  (genRows num_rows fc ts seed).map (fun rows => header :: rows)

/-- The SKU column of a row list. -/
def rowSkus (rows : List (List String)) : List String := rows.map (fun r => r.getD 1 "")

/-!
Specification-side definitions (from the spec's words, for the refinement
claims about the repair step).
-/

/-- The separator character the spec assigns to each style's repair step:
`-` for Numeric and Alphanumeric, `L` for AlphanumericSpecial. -/
def sepOf (sku_type : Nat) : Char := if sku_type = 2 then 'L' else '-'

/-- Split a character list at the last occurrence of `sep`: returns the part
before it and the part after it, or `none` if `sep` does not occur. -/
def splitLastCh (sep : Char) (l : List Char) : Option (List Char × List Char) :=
  let rev := l.reverse
  match rev.dropWhile (fun c => c != sep) with
  | [] => none
  | _ :: preRev => some (preRev.reverse, (rev.takeWhile (fun c => c != sep)).reverse)

/-- Split a character list at the first occurrence of `sep`. -/
def splitFirstCh (sep : Char) (l : List Char) : Option (List Char × List Char) :=
  match l.dropWhile (fun c => c != sep) with
  | [] => none
  | _ :: rest => some (l.takeWhile (fun c => c != sep), rest)

/-- The spec's description of one Alphanumeric repair attempt: split on the
last `-`, parse the numeric suffix, add the collision counter, re-zero-pad
to 5 digits, rejoin with `-`. -/
def repairAlnumSpec (orig : String) (counter : Nat) : Option String :=
  match splitLastCh '-' orig.data with
  | none => none
  | some (pre, suf) =>
    (pyInt ⟨suf⟩).map (fun n => (⟨pre⟩ : String) ++ "-" ++ pyFormat05 (n + (counter : Int)))

/-- The spec's description of one AlphanumericSpecial repair attempt: split
on `L`, parse the trailing segment (after the last `L`), add the collision
counter, rejoin with `L`. -/
def repairSpecialLastSpec (orig : String) (counter : Nat) : Option String :=
  match splitLastCh 'L' orig.data with
  | none => none
  | some (pre, suf) =>
    (pyInt ⟨suf⟩).map (fun n => (⟨pre⟩ : String) ++ "L" ++ intToStr (n + (counter : Int)))

/-- What the code actually does for an AlphanumericSpecial repair attempt,
stated independently of `str.split`: take the segment before the FIRST `L`,
parse the segment between the first `L` and the following `L` (or the end),
add the collision counter, rejoin with `L`, discarding everything after the
second `L`. -/
def repairSpecialFirstSpec (orig : String) (counter : Nat) : Option String :=
  match splitFirstCh 'L' orig.data with
  | none => none
  | some (pre, rest) =>
    (pyInt ⟨rest.takeWhile (fun c => c != 'L')⟩).map
      (fun n => (⟨pre⟩ : String) ++ "L" ++ intToStr (n + (counter : Int)))

/-- The exact shape of every candidate `generate_sku` emits for the
Alphanumeric style: a dash-free prefix, a `-`, and a zero-padded number in
[10000, 99999]. -/
def AlnumShape (c : String) : Prop :=
  ∃ (pfx : List Char) (n : Nat),
    c = (⟨pfx⟩ : String) ++ "-" ++ pyFormat05 (n : Int) ∧
    (∀ x ∈ pfx, x ≠ '-') ∧ 10000 ≤ n ∧ n ≤ 99999

/-!
Theorems.  First the semantic-identity of the strictness combinator, then
general lemmas about the random draws, the decimal strings, and the split
functions; finally one theorem (and witness or counterexample) per claim.
-/

theorem sNat_eq {α : Sort u} (n : Nat) (f : Nat → α) : sNat n f = f n := by
  cases n <;> rfl

theorem randbelowAux_lt {n k f : Nat} {st st2 : MTState} {r : Nat}
    (h : randbelowAux n k f st = some (r, st2)) : r < n := by
  induction f generalizing st with
  | zero => simp [randbelowAux] at h
  | succ f ih =>
    rw [randbelowAux] at h
    split at h
    · simp_all
    · exact ih h

theorem randbelow_lt {n : Nat} {st st2 : MTState} {r : Nat}
    (h : randbelow st n = some (r, st2)) : r < n := by
  rw [randbelow] at h
  split at h
  · simp at h
  · exact randbelowAux_lt h

theorem pyRandint_bounds {st st2 : MTState} {a b v : Nat}
    (h : pyRandint st a b = some (v, st2)) : a ≤ v ∧ v ≤ b := by
  rw [pyRandint] at h
  split at h
  · simp at h
  · next hab =>
    rcases hr : randbelow st (b + 1 - a) with _ | ⟨r, st3⟩ <;> rw [hr] at h <;> simp at h
    rcases h with ⟨hv, _⟩
    have := randbelow_lt hr
    omega

theorem pyChoice_mem {st st2 : MTState} {l : List Char} {c : Char}
    (h : pyChoice st l = some (c, st2)) : c ∈ l := by
  rw [pyChoice] at h
  rcases hr : randbelow st l.length with _ | ⟨i, st3⟩ <;> rw [hr] at h
  · simp at h
  · simp only [Option.map_eq_some'] at h
    rcases h with ⟨a, hg, hpair⟩
    simp only [Prod.mk.injEq] at hpair
    rw [← hpair.1]
    exact List.get?_mem hg

theorem chooseN_mem {n : Nat} {st st2 : MTState} {cs : List Char}
    (h : chooseN n st = some (cs, st2)) : ∀ c ∈ cs, c ∈ letters.data := by
  induction n generalizing st st2 cs with
  | zero =>
    simp only [chooseN, Option.some.injEq, Prod.mk.injEq] at h
    intro c hc
    rw [← h.1] at hc
    simp at hc
  | succ n ih =>
    rw [chooseN] at h
    rcases h1 : pyChoice st letters.data with _ | ⟨c1, stA⟩ <;> rw [h1] at h
    · simp at h
    · rcases h2 : chooseN n stA with _ | ⟨cs1, stB⟩ <;> simp only [h2] at h
      · exact absurd h (by simp)
      · simp only [Option.some.injEq, Prod.mk.injEq] at h
        intro c hc
        rw [← h.1] at hc
        rcases List.mem_cons.mp hc with hh | hh
        · rw [hh]; exact pyChoice_mem h1
        · exact ih h2 c hh

theorem digitVal_digitChar {n : Nat} (h : n < 10) : digitVal (digitChar n) = n := by
  interval_cases n <;> decide

theorem isDigitCh_digitChar {n : Nat} (h : n < 10) : isDigitCh (digitChar n) = true := by
  interval_cases n <;> decide

theorem isDigitCh_ne {c : Char} (h : isDigitCh c = true) :
    c ≠ '-' ∧ c ≠ '+' ∧ c ≠ ' ' ∧ c ≠ 'L' := by
  rw [isDigitCh] at h
  simp only [Bool.and_eq_true, decide_eq_true_eq] at h
  refine ⟨?_, ?_, ?_, ?_⟩ <;> intro hc <;> rw [hc] at h <;> exact absurd h (by decide)

theorem nda_ne_nil (f n : Nat) : natDigitsAux f n ≠ [] := by
  cases f with
  | zero => simp [natDigitsAux]
  | succ f =>
    rw [natDigitsAux]
    split <;> simp

theorem nda_all_digits (f n : Nat) (hf : n ≤ f) :
    ∀ c ∈ natDigitsAux f n, isDigitCh c = true := by
  induction f generalizing n with
  | zero =>
    have hn : n = 0 := Nat.le_zero.mp hf
    subst hn
    intro c hc
    simp only [natDigitsAux, List.mem_singleton] at hc
    rw [hc]
    decide
  | succ f ih =>
    rw [natDigitsAux]
    split
    · next h10 =>
      intro c hc
      simp only [List.mem_singleton] at hc
      rw [hc]
      exact isDigitCh_digitChar h10
    · next h10 =>
      intro c hc
      rcases List.mem_append.mp hc with h | h
      · have hlt := Nat.div_lt_self (show 0 < n by omega) (show 1 < 10 by omega)
        exact ih (n / 10) (by omega) c h
      · simp only [List.mem_singleton] at h
        rw [h]
        exact isDigitCh_digitChar (Nat.mod_lt _ (by omega))

theorem nda_foldl (f n a : Nat) (hf : n ≤ f) :
    (natDigitsAux f n).foldl (fun a c => a * 10 + digitVal c) a =
      a * 10 ^ (natDigitsAux f n).length + n := by
  induction f generalizing n a with
  | zero =>
    have hn : n = 0 := Nat.le_zero.mp hf
    subst hn
    simp [natDigitsAux, digitVal_digitChar]
  | succ f ih =>
    rw [natDigitsAux]
    split
    · next h10 =>
      simp [digitVal_digitChar h10]
    · next h10 =>
      have hlt := Nat.div_lt_self (show 0 < n by omega) (show 1 < 10 by omega)
      rw [List.foldl_append, ih (n / 10) a (by omega), List.length_append]
      simp only [List.foldl_cons, List.foldl_nil, List.length_singleton]
      rw [digitVal_digitChar (Nat.mod_lt _ (by omega))]
      have hQR := Nat.div_add_mod n 10
      rw [pow_succ, Nat.add_mul, Nat.mul_assoc]
      omega

theorem parse_nda (f n : Nat) (hf : n ≤ f) :
    parseDigits (natDigitsAux f n) = some n := by
  rw [parseDigits, if_neg (nda_ne_nil f n), if_pos]
  · rw [nda_foldl f n 0 hf]
    simp
  · rw [List.all_eq_true]
    exact nda_all_digits f n hf

theorem foldl_replicate_zero (k : Nat) :
    (List.replicate k '0').foldl (fun a c => a * 10 + digitVal c) 0 = 0 := by
  induction k with
  | zero => rfl
  | succ k ih =>
    rw [List.replicate_succ, List.foldl_cons]
    have h0 : (0 * 10 + digitVal '0') = 0 := by decide
    rw [h0]
    exact ih

theorem parse_zpad_nda (k f n : Nat) (hf : n ≤ f) :
    parseDigits (List.replicate k '0' ++ natDigitsAux f n) = some n := by
  rw [parseDigits, if_neg, if_pos]
  · rw [List.foldl_append, foldl_replicate_zero, nda_foldl f n 0 hf]
    simp
  · rw [List.all_eq_true]
    intro c hc
    rcases List.mem_append.mp hc with h | h
    · rw [List.eq_of_mem_replicate h]
      decide
    · exact nda_all_digits f n hf c h
  · simp [List.append_eq_nil, nda_ne_nil f n]

theorem nda_len (k : Nat) : ∀ f n, n ≤ f → 10 ^ k ≤ n → n < 10 ^ (k + 1) →
    (natDigitsAux f n).length = k + 1 := by
  induction k with
  | zero =>
    intro f n hf h1 h2
    have h10 : n < 10 := by
      have : (10 : Nat) ^ (0 + 1) = 10 := by norm_num
      omega
    cases f with
    | zero => simp [natDigitsAux]
    | succ f => rw [natDigitsAux, if_pos h10]; simp
  | succ k ih =>
    intro f n hf h1 h2
    have hP : (10 : Nat) ≤ 10 ^ (k + 1) := by
      calc (10 : Nat) = 10 ^ 1 := (pow_one 10).symm
      _ ≤ 10 ^ (k + 1) := Nat.pow_le_pow_right (by omega) (by omega)
    have h10 : ¬ n < 10 := by omega
    cases f with
    | zero => omega
    | succ f =>
      rw [natDigitsAux, if_neg h10, List.length_append]
      have hlt := Nat.div_lt_self (show 0 < n by omega) (show 1 < 10 by omega)
      have hlow : 10 ^ k ≤ n / 10 :=
        (Nat.le_div_iff_mul_le (by omega)).mpr (by rw [← pow_succ]; omega)
      have hhigh : n / 10 < 10 ^ (k + 1) :=
        (Nat.div_lt_iff_lt_mul (by omega)).mpr (by rw [← pow_succ]; omega)
      rw [ih f (n / 10) (by omega) hlow hhigh]
      simp

theorem str_eq_iff (a b : String) : a = b ↔ a.data = b.data := by
  constructor
  · intro h; rw [h]
  · intro h; cases a; cases b; exact congrArg String.mk h

theorem str_data_append (a b : String) : (a ++ b).data = a.data ++ b.data := rfl

theorem str_mk_data (l : List Char) : (⟨l⟩ : String).data = l := rfl

theorem natToStr_data (n : Nat) : (natToStr n).data = natDigitsAux n n := rfl

theorem parse_natToStr (n : Nat) : parseDigits (natToStr n).data = some n :=
  parse_nda n n le_rfl

theorem natToStr_inj {m n : Nat} (h : natToStr m = natToStr n) : m = n := by
  have hm := parse_natToStr m
  have hn := parse_natToStr n
  rw [h, hn] at hm
  exact (Option.some.injEq _ _ ▸ hm).symm

theorem dropWhile_no_space {l : List Char} (h : ∀ c ∈ l, c ≠ ' ') :
    l.dropWhile (fun c => decide (c = ' ')) = l := by
  cases l with
  | nil => rfl
  | cons c tl =>
    rw [List.dropWhile_cons, if_neg]
    simp only [decide_eq_true_eq]
    exact h c (by simp)

theorem pyStrip_no_space {l : List Char} (h : ∀ c ∈ l, c ≠ ' ') : pyStrip l = l := by
  rw [pyStrip, dropWhile_no_space h, dropWhile_no_space, List.reverse_reverse]
  intro c hc
  exact h c (List.mem_reverse.mp hc)

theorem pyInt_digits (l : List Char) (hne : l ≠ []) (hall : ∀ c ∈ l, isDigitCh c = true) :
    pyInt ⟨l⟩ = (parseDigits l).map (fun n => Int.ofNat n) := by
  have hstrip : pyStrip (String.data ⟨l⟩) = l := by
    rw [str_mk_data]
    exact pyStrip_no_space (fun c hc => (isDigitCh_ne (hall c hc)).2.2.1)
  cases l with
  | nil => exact absurd rfl hne
  | cons c tl =>
    have hc := isDigitCh_ne (hall c (by simp))
    rw [pyInt]
    simp only [hstrip]
    rw [if_neg hc.1, if_neg hc.2.1]

theorem str_eta (s : String) : (⟨s.data⟩ : String) = s := by cases s; rfl

theorem zpad_data (w : Nat) (s : String) :
    (zpad w s).data = List.replicate (w - s.length) '0' ++ s.data := rfl

theorem pyFormat05_natCast_data (n : Nat) :
    (pyFormat05 (n : Int)).data =
      List.replicate (5 - (natToStr n).length) '0' ++ natDigitsAux n n := by
  rw [pyFormat05, if_neg (by omega), Int.natAbs_ofNat]
  rfl

theorem pyFormat05_natCast_all_digits (n : Nat) :
    ∀ c ∈ (pyFormat05 (n : Int)).data, isDigitCh c = true := by
  rw [pyFormat05_natCast_data]
  intro c hc
  rcases List.mem_append.mp hc with h | h
  · rw [List.eq_of_mem_replicate h]; decide
  · exact nda_all_digits n n le_rfl c h

theorem pyFormat05_natCast_ne_nil (n : Nat) : (pyFormat05 (n : Int)).data ≠ [] := by
  rw [pyFormat05_natCast_data]
  simp [nda_ne_nil n n]

theorem pyInt_pyFormat05 (m : Int) : pyInt (pyFormat05 m) = some m := by
  rcases le_or_lt 0 m with hm | hm
  · obtain ⟨n, rfl⟩ := Int.eq_ofNat_of_zero_le hm
    rw [← str_eta (pyFormat05 _),
      pyInt_digits _ (pyFormat05_natCast_ne_nil n) (pyFormat05_natCast_all_digits n),
      pyFormat05_natCast_data, parse_zpad_nda _ n n le_rfl]
    rfl
  · rw [pyFormat05, if_pos hm, pyInt]
    have hdata : (("-" ++ zpad 4 (natToStr m.natAbs)) : String).data
        = '-' :: (List.replicate (4 - (natToStr m.natAbs).length) '0' ++
            natDigitsAux m.natAbs m.natAbs) := by
      rw [str_data_append, zpad_data]
      rfl
    have hstrip : pyStrip (("-" ++ zpad 4 (natToStr m.natAbs)) : String).data
        = '-' :: (List.replicate (4 - (natToStr m.natAbs).length) '0' ++
            natDigitsAux m.natAbs m.natAbs) := by
      rw [hdata]
      apply pyStrip_no_space
      intro c hc
      rcases List.mem_cons.mp hc with h | h
      · rw [h]; decide
      · rcases List.mem_append.mp h with h | h
        · rw [List.eq_of_mem_replicate h]; decide
        · exact (isDigitCh_ne (nda_all_digits _ _ le_rfl c h)).2.2.1
    simp only [hstrip]
    rw [if_pos trivial, parse_zpad_nda _ _ _ le_rfl]
    simp only [Option.map_some', Option.some.injEq, Int.ofNat_eq_natCast]
    omega

theorem pySplitCh_ne_nil (sep : Char) (l : List Char) : pySplitCh sep l ≠ [] := by
  cases l with
  | nil => simp [pySplitCh]
  | cons c r =>
    rw [pySplitCh]
    split
    · simp
    · split <;> simp

theorem pySplitCh_not_mem (sep : Char) (l : List Char) (h : sep ∉ l) :
    pySplitCh sep l = [l] := by
  induction l with
  | nil => rfl
  | cons c r ih =>
    rw [pySplitCh, if_neg (fun hcs => h (by rw [← hcs]; exact List.mem_cons_self c r))]
    simp only [ih (fun hr => h (List.mem_cons_of_mem c hr))]

theorem pySplitCh_middle (sep : Char) (a b : List Char) (ha : sep ∉ a) :
    pySplitCh sep (a ++ sep :: b) = a :: pySplitCh sep b := by
  induction a with
  | nil => simp [pySplitCh]
  | cons c a ih =>
    rw [List.cons_append, pySplitCh,
      if_neg (fun hcs => ha (by rw [← hcs]; exact List.mem_cons_self c a))]
    simp only [ih (fun hr => ha (List.mem_cons_of_mem c hr))]

theorem takeWhile_middle (p : Char → Bool) (a : List Char) (y : Char) (b : List Char)
    (ha : ∀ x ∈ a, p x = true) (hy : p y = false) :
    (a ++ y :: b).takeWhile p = a := by
  induction a with
  | nil => simp [List.takeWhile_cons, hy]
  | cons c a ih =>
    rw [List.cons_append, List.takeWhile_cons, ha c (by simp)]
    simp only [ih (fun x hx => ha x (List.mem_cons_of_mem c hx))]
    simp

theorem dropWhile_middle (p : Char → Bool) (a : List Char) (y : Char) (b : List Char)
    (ha : ∀ x ∈ a, p x = true) (hy : p y = false) :
    (a ++ y :: b).dropWhile p = y :: b := by
  induction a with
  | nil => simp [List.dropWhile_cons, hy]
  | cons c a ih =>
    rw [List.cons_append, List.dropWhile_cons, ha c (by simp)]
    simpa using ih (fun x hx => ha x (List.mem_cons_of_mem c hx))

theorem splitLastCh_middle (sep : Char) (a b : List Char) (hb : sep ∉ b) :
    splitLastCh sep (a ++ sep :: b) = some (a, b) := by
  have hrev : (a ++ sep :: b).reverse = b.reverse ++ sep :: a.reverse := by
    rw [List.reverse_append, List.reverse_cons, List.append_assoc]
    simp
  have hball : ∀ x ∈ b.reverse, (x != sep) = true := by
    intro x hx
    simp only [bne_iff_ne, ne_eq]
    exact fun hxe => hb (by rw [← hxe]; exact List.mem_reverse.mp hx)
  have hsep : ((sep != sep) = false) := by simp
  rw [splitLastCh]
  simp only [hrev]
  rw [dropWhile_middle _ _ _ _ hball hsep, takeWhile_middle _ _ _ _ hball hsep]
  simp

theorem pySplitCh_head (sep : Char) (l : List Char) :
    (pySplitCh sep l).head? = some (l.takeWhile (fun c => c != sep)) := by
  induction l with
  | nil => rfl
  | cons c r ih =>
    rw [pySplitCh]
    split
    · next hc =>
      subst hc
      simp [List.takeWhile_cons]
    · next hc =>
      rcases hsplit : pySplitCh sep r with _ | ⟨g, gs⟩
      · exact absurd hsplit (pySplitCh_ne_nil sep r)
      · rw [hsplit] at ih
        simp only [hsplit, List.head?_cons, Option.some.injEq] at ih ⊢
        rw [List.takeWhile_cons, if_pos (by simp [bne_iff_ne]; exact hc)]
        rw [ih]

theorem pySplitCh_second (sep : Char) (l : List Char) :
    (pySplitCh sep l).get? 1 =
      (match l.dropWhile (fun c => c != sep) with
       | [] => none
       | _ :: r => some (r.takeWhile (fun c => c != sep))) := by
  induction l with
  | nil => rfl
  | cons c r ih =>
    rw [pySplitCh]
    split
    · next hc =>
      subst hc
      rw [List.dropWhile_cons]
      simp only [bne_self_eq_false, Bool.false_eq_true, if_false]
      rw [List.get?_cons_succ, List.get?_zero, pySplitCh_head]
    · next hc =>
      have hcb : ((c != sep) = true) := by simp [bne_iff_ne]; exact hc
      rcases hsplit : pySplitCh sep r with _ | ⟨g, gs⟩
      · exact absurd hsplit (pySplitCh_ne_nil sep r)
      · rw [hsplit] at ih
        simp only [hsplit]
        rw [List.dropWhile_cons, if_pos hcb]
        rw [List.get?_cons_succ] at ih ⊢
        exact ih

theorem pySplit_get0 (sep : Char) (s : String) :
    (pySplit sep s).get? 0 = some (⟨s.data.takeWhile (fun c => c != sep)⟩ : String) := by
  rw [pySplit, List.get?_map, List.get?_zero, pySplitCh_head]
  rfl

theorem pySplit_get1 (sep : Char) (s : String) :
    (pySplit sep s).get? 1 =
      (match s.data.dropWhile (fun c => c != sep) with
       | [] => none
       | _ :: r => some (⟨r.takeWhile (fun c => c != sep)⟩ : String)) := by
  rw [pySplit, List.get?_map, pySplitCh_second]
  cases hd : s.data.dropWhile (fun c => c != sep) <;> rfl

theorem mutate0_eq (orig : String) (k : Nat) :
    mutate 0 orig k = some (orig ++ "-" ++ natToStr k) := rfl

theorem mutate2_eq_firstSpec (c : String) (k : Nat) :
    mutate 2 c k = repairSpecialFirstSpec c k := by
  rw [mutate, if_neg (by omega), if_neg (by omega), repairSpecialFirstSpec, splitFirstCh]
  simp only [pySplit_get0, pySplit_get1]
  cases hd : c.data.dropWhile (fun x => x != 'L') with
  | nil => simp only [hd]
  | cons y r => simp only [hd]

theorem mutate1_no_sep {c : String} (h : '-' ∉ c.data) (k : Nat) :
    mutate 1 c k = none := by
  have hsplit : pySplit '-' c = [⟨c.data⟩] := by
    rw [pySplit, pySplitCh_not_mem _ _ h]
    rfl
  rw [mutate, if_neg (by omega), if_pos rfl]
  simp only [hsplit]
  rfl

theorem mutate2_no_sep {c : String} (h : 'L' ∉ c.data) (k : Nat) :
    mutate 2 c k = none := by
  have hsplit : pySplit 'L' c = [⟨c.data⟩] := by
    rw [pySplit, pySplitCh_not_mem _ _ h]
    rfl
  rw [mutate, if_neg (by omega), if_neg (by omega)]
  simp only [hsplit]
  rfl

theorem mutate1_shape {c : String} {pfx : List Char} {n : Nat}
    (hc : c = (⟨pfx⟩ : String) ++ "-" ++ pyFormat05 (n : Int))
    (hpfx : ∀ x ∈ pfx, x ≠ '-') (k : Nat) :
    mutate 1 c k = some ((⟨pfx⟩ : String) ++ "-" ++ pyFormat05 ((n : Int) + (k : Int))) := by
  have hdata : c.data = pfx ++ '-' :: (pyFormat05 (n : Int)).data := by
    rw [hc, str_data_append, str_data_append, str_mk_data, List.append_assoc]
    rfl
  have hnotmem_f : '-' ∉ (pyFormat05 (n : Int)).data := fun h =>
    (isDigitCh_ne (pyFormat05_natCast_all_digits n _ h)).1 rfl
  have hsplit : pySplit '-' c = [⟨pfx⟩, ⟨(pyFormat05 (n : Int)).data⟩] := by
    rw [pySplit, hdata, pySplitCh_middle _ _ _ (fun h => hpfx '-' h rfl),
      pySplitCh_not_mem _ _ hnotmem_f]
    rfl
  rw [mutate, if_neg (by omega), if_pos rfl]
  simp only [hsplit, List.get?_cons_zero, List.get?_cons_succ]
  rw [str_eta, pyInt_pyFormat05]
  rfl

theorem alnumSpec_shape {c : String} {pfx : List Char} {n : Nat}
    (hc : c = (⟨pfx⟩ : String) ++ "-" ++ pyFormat05 (n : Int))
    (hpfx : ∀ x ∈ pfx, x ≠ '-') (k : Nat) :
    repairAlnumSpec c k = some ((⟨pfx⟩ : String) ++ "-" ++ pyFormat05 ((n : Int) + (k : Int))) := by
  have hdata : c.data = pfx ++ '-' :: (pyFormat05 (n : Int)).data := by
    rw [hc, str_data_append, str_data_append, str_mk_data, List.append_assoc]
    rfl
  have hnotmem_f : '-' ∉ (pyFormat05 (n : Int)).data := fun h =>
    (isDigitCh_ne (pyFormat05_natCast_all_digits n _ h)).1 rfl
  rw [repairAlnumSpec]
  simp only [hdata, splitLastCh_middle '-' pfx _ hnotmem_f]
  rw [str_eta, pyInt_pyFormat05]
  rfl

theorem genAlnum_shape {rng : MTState} {c : String} (h : genAlnum rng = some c) :
    ∃ (pfx : List Char) (n : Nat),
      c = (⟨pfx⟩ : String) ++ "-" ++ pyFormat05 (n : Int) ∧
      (∀ x ∈ pfx, x ≠ '-') ∧ 10000 ≤ n ∧ n ≤ 99999 := by
  rw [genAlnum] at h
  rcases h1 : chooseN 3 rng with _ | ⟨pfx, st1⟩ <;> simp only [h1] at h
  · exact absurd h (by simp)
  rcases h2 : pyRandint st1 10000 99999 with _ | ⟨np, st2⟩ <;> simp only [h2] at h
  · exact absurd h (by simp)
  simp only [Option.some.injEq] at h
  have hno : ∀ y ∈ letters.data, y ≠ '-' := by decide
  exact ⟨pfx, np, h.symm, fun x hx => hno x (chooseN_mem h1 x hx),
    (pyRandint_bounds h2).1, (pyRandint_bounds h2).2⟩

theorem generate_sku_1_eq (index seed : Nat) :
    generate_sku 1 index seed =
      genAlnum (seedMT (((index - 1) / 3 + 1) * 1000 + seed)) := rfl

theorem gen1_shape {index seed : Nat} {c : String}
    (h : generate_sku 1 index seed = some c) : AlnumShape c := by
  rw [generate_sku_1_eq] at h
  exact genAlnum_shape h

theorem repairLoop_not_mem {t : Nat} {orig : String} {issued : Finset String}
    {fuel : Nat} : ∀ {ctr : Nat} {sku r : String},
    repairLoop t orig issued fuel ctr sku = some r → r ∉ issued := by
  induction fuel with
  | zero =>
    intro ctr sku r h
    rw [repairLoop] at h
    split at h
    · simp at h
    · next hmem => simp only [Option.some.injEq] at h; rw [← h]; exact hmem
  | succ fuel ih =>
    intro ctr sku r h
    rw [repairLoop] at h
    split at h
    · rcases hm : mutate t orig (ctr + 1) with _ | sku2 <;> simp only [hm] at h
      · exact absurd h (by simp)
      · exact ih h
    · next hmem => simp only [Option.some.injEq] at h; rw [← h]; exact hmem

theorem repair_not_mem_id (t : Nat) (c : String) (issued : Finset String) (fuel : Nat)
    (h : c ∉ issued) : repair t c issued fuel = some c := by
  cases fuel with
  | zero => rw [repair, repairLoop, if_neg h]
  | succ fuel => rw [repair, repairLoop, if_neg h]

theorem repairLoop_reach (t : Nat) (orig : String) (issued : Finset String)
    (g : Nat → String)
    (hmut : ∀ m, 1 ≤ m → mutate t orig m = some (g m)) :
    ∀ fuel ctr, (∃ k, ctr ≤ k ∧ k ≤ ctr + fuel ∧ g k ∉ issued) →
      ∃ r, repairLoop t orig issued fuel ctr (g ctr) = some r ∧ r ∉ issued := by
  intro fuel
  induction fuel with
  | zero =>
    rintro ctr ⟨k, hk1, hk2, hk3⟩
    have hke : k = ctr := by omega
    subst hke
    rw [repairLoop, if_neg hk3]
    exact ⟨g k, rfl, hk3⟩
  | succ fuel ih =>
    rintro ctr ⟨k, hk1, hk2, hk3⟩
    rw [repairLoop]
    by_cases hmem : g ctr ∈ issued
    · rw [if_pos hmem]
      have hk1' : ctr + 1 ≤ k := by
        rcases Nat.eq_or_lt_of_le hk1 with h | h
        · exact absurd (h ▸ hmem) hk3
        · omega
      rw [hmut (ctr + 1) (by omega)]
      exact ih (ctr + 1) ⟨k, hk1', by omega, hk3⟩
    · rw [if_neg hmem]
      exact ⟨g ctr, rfl, hmem⟩

theorem exists_fresh (issued : Finset String) (g : Nat → String)
    (hinj : ∀ j k, g j = g k → j = k) :
    ∃ k, k ≤ issued.card + 1 ∧ g k ∉ issued := by
  by_contra hcon
  push_neg at hcon
  have hsub : (Finset.range (issued.card + 2)).image g ⊆ issued := by
    intro x hx
    rcases Finset.mem_image.mp hx with ⟨k, hk, rfl⟩
    have hk2 := Finset.mem_range.mp hk
    exact hcon k (by omega)
  have hcard := Finset.card_le_card hsub
  rw [Finset.card_image_of_injective _ (fun a b h => hinj a b h), Finset.card_range] at hcard
  omega

theorem repair_terminates (t : Nat) (cand : String) (issued : Finset String)
    (g : Nat → String) (hg0 : g 0 = cand)
    (hmut : ∀ m, 1 ≤ m → mutate t cand m = some (g m))
    (hinj : ∀ j k, g j = g k → j = k) :
    ∃ r, repair t cand issued (issued.card + 1) = some r ∧ r ∉ issued := by
  obtain ⟨k, hk, hfresh⟩ := exists_fresh issued g hinj
  have hr := repairLoop_reach t cand issued g hmut (issued.card + 1) 0
    ⟨k, Nat.zero_le k, by omega, hfresh⟩
  rw [hg0] at hr
  rw [repair]
  exact hr

theorem str_append_right_inj {a x y : String} (h : a ++ x = a ++ y) : x = y := by
  rw [str_eq_iff] at h ⊢
  rw [str_data_append, str_data_append] at h
  exact List.append_cancel_left h

theorem natToStr_len_pos (k : Nat) : 0 < (natToStr k).data.length := by
  rcases hl : (natToStr k).data with _ | _
  · exact absurd hl (nda_ne_nil k k)
  · simp

theorem ne_append_dash {cand : String} {k : Nat} : cand ≠ cand ++ "-" ++ natToStr k := by
  intro h
  have hl := congrArg (fun s => s.data.length) h
  simp only [str_data_append, List.length_append] at hl
  have hp := natToStr_len_pos k
  have h1 : ("-" : String).data.length = 1 := rfl
  omega

theorem append_dash_nat_inj {cand : String} {j k : Nat}
    (h : cand ++ "-" ++ natToStr j = cand ++ "-" ++ natToStr k) : j = k :=
  natToStr_inj (str_append_right_inj h)

theorem repair0_terminates (cand : String) (issued : Finset String) :
    ∃ r, repair 0 cand issued (issued.card + 1) = some r ∧ r ∉ issued := by
  apply repair_terminates 0 cand issued
    (fun m => if m = 0 then cand else cand ++ "-" ++ natToStr m)
  · rfl
  · intro m hm
    simp only [if_neg (show ¬ m = 0 by omega)]
    exact mutate0_eq cand m
  · intro j k h
    by_cases hj : j = 0 <;> by_cases hk : k = 0
    · omega
    · rw [if_pos hj, if_neg hk] at h
      exact absurd h ne_append_dash
    · rw [if_neg hj, if_pos hk] at h
      exact absurd h.symm ne_append_dash
    · rw [if_neg hj, if_neg hk] at h
      have := append_dash_nat_inj h
      omega

theorem repair1_terminates {cand : String} (issued : Finset String) (hs : AlnumShape cand) :
    ∃ r, repair 1 cand issued (issued.card + 1) = some r ∧ r ∉ issued := by
  obtain ⟨pfx, n, hc, hpfx, hn1, hn2⟩ := hs
  apply repair_terminates 1 cand issued
    (fun m => (⟨pfx⟩ : String) ++ "-" ++ pyFormat05 ((n : Int) + (m : Int)))
  · simp only [Nat.cast_zero, add_zero]
    exact hc.symm
  · intro m hm
    exact mutate1_shape hc hpfx m
  · intro j k h
    have h2 := str_append_right_inj h
    have h3 := congrArg pyInt h2
    rw [pyInt_pyFormat05, pyInt_pyFormat05] at h3
    simp only [Option.some.injEq] at h3
    omega

theorem mkRow_getD_sku (fc ts sku : String) (i : Nat) :
    (mkRow fc ts sku i).getD 1 "" = sku := rfl

theorem genRowsAux_inv {fc ts : String} {seed : Nat} :
    ∀ {n i : Nat} {seen : Finset String} {l : List (List String)},
    genRowsAux fc ts seed n i seen = some l →
    l.length = n ∧ (rowSkus l).Nodup ∧ ∀ s ∈ rowSkus l, s ∉ seen := by
  intro n
  induction n with
  | zero =>
    intro i seen l h
    simp only [genRowsAux, Option.some.injEq] at h
    rw [← h]
    simp [rowSkus]
  | succ n ih =>
    intro i seen l h
    rw [genRowsAux] at h
    rcases h1 : generate_sku ((i - 1) % 3) i seed with _ | cand <;> simp only [h1] at h
    · exact absurd h (by simp)
    rcases h2 : repair ((i - 1) % 3) cand seen (seen.card + 1) with _ | sku <;>
      simp only [h2] at h
    · exact absurd h (by simp)
    rcases h3 : genRowsAux fc ts seed n (i + 1) (insert sku seen) with _ | rest <;>
      simp only [h3] at h
    · exact absurd h (by simp)
    simp only [Option.some.injEq] at h
    obtain ⟨hlen, hnodup, hfresh⟩ := ih h3
    have hskus : rowSkus l = sku :: rowSkus rest := by
      rw [← h]
      rfl
    refine ⟨?_, ?_, ?_⟩
    · rw [← h]
      simp [hlen]
    · rw [hskus]
      refine List.nodup_cons.mpr ⟨?_, hnodup⟩
      intro hmem
      exact hfresh sku hmem (Finset.mem_insert_self sku seen)
    · rw [hskus]
      intro s hs
      rcases List.mem_cons.mp hs with rfl | hs2
      · rw [repair] at h2
        exact repairLoop_not_mem h2
      · intro hseen
        exact hfresh s hs2 (Finset.mem_insert_of_mem hseen)

theorem genRowsAux_rows {fc ts : String} {seed : Nat} :
    ∀ {n i : Nat} {seen : Finset String} {l : List (List String)},
    genRowsAux fc ts seed n i seen = some l →
    ∀ m, m < l.length → ∃ sku, l.getD m [] = mkRow fc ts sku (i + m) := by
  intro n
  induction n with
  | zero =>
    intro i seen l h m hm
    simp only [genRowsAux, Option.some.injEq] at h
    rw [← h] at hm
    simp at hm
  | succ n ih =>
    intro i seen l h m hm
    rw [genRowsAux] at h
    rcases h1 : generate_sku ((i - 1) % 3) i seed with _ | cand <;> simp only [h1] at h
    · exact absurd h (by simp)
    rcases h2 : repair ((i - 1) % 3) cand seen (seen.card + 1) with _ | sku <;>
      simp only [h2] at h
    · exact absurd h (by simp)
    rcases h3 : genRowsAux fc ts seed n (i + 1) (insert sku seen) with _ | rest <;>
      simp only [h3] at h
    · exact absurd h (by simp)
    simp only [Option.some.injEq] at h
    cases m with
    | zero =>
      refine ⟨sku, ?_⟩
      rw [← h]
      simp
    | succ m =>
      have hm2 : m < rest.length := by
        rw [← h] at hm
        simpa using hm
      obtain ⟨sku2, hsku2⟩ := ih h3 m hm2
      refine ⟨sku2, ?_⟩
      rw [← h]
      simp only [List.getD_cons_succ]
      rw [hsku2]
      congr 1
      omega

theorem mkRow_length (fc ts sku : String) (i : Nat) : (mkRow fc ts sku i).length = 21 := rfl

theorem mkRow_get1 (fc ts sku : String) (i : Nat) : (mkRow fc ts sku i).get? 1 = some sku := rfl

theorem mkRow_get3 (fc ts sku : String) (i : Nat) :
    (mkRow fc ts sku i).get? 3 = some ("Generated Product " ++ zpad 4 (natToStr i)) := rfl

theorem mkRow_frame (fc ts sku : String) (i : Nat) :
    ∀ j, j < 21 → j ≠ 1 → j ≠ 3 → (mkRow fc ts sku i).get? j = (base_row fc ts).get? j := by
  intro j hj h1 h3
  interval_cases j <;> first | rfl | omega

/-!
Claim theorems.
-/

/-- C1: for every row count N ≥ 1 and every seed, when the generation loop
(`generate_sku` followed by the collision-repair loop) completes and emits
its rows, it emits exactly N rows whose SKU strings are pairwise distinct:
the issued set contains no duplicates at completion. -/
theorem c1_skus_nodup (N : Int) (fc ts : String) (seed : Nat)
    (rows : List (List String)) (hN : 1 ≤ N)
    (h : genRows N fc ts seed = some rows) :
    rows.length = N.toNat ∧ (rowSkus rows).Nodup := by
  rw [genRows] at h
  obtain ⟨hlen, hnodup, _⟩ := genRowsAux_inv h
  exact ⟨hlen, hnodup⟩

theorem c1_skus_nodup_witness :
    1 ≤ (1 : Int) ∧
    genRows 1 "Stock Prop Test" "5500" 0 =
      some [["Stock Prop Test", "819219713", "", "Generated Product 0001", "product",
        "100", "", "", "", "0", "0", "", "5500", "1886", "2088", "1", "202", "0", "",
        "0", "0"]] ∧
    ([["Stock Prop Test", "819219713", "", "Generated Product 0001", "product",
        "100", "", "", "", "0", "0", "", "5500", "1886", "2088", "1", "202", "0", "",
        "0", "0"]] : List (List String)).length = (1 : Int).toNat ∧
    (rowSkus [["Stock Prop Test", "819219713", "", "Generated Product 0001", "product",
        "100", "", "", "", "0", "0", "", "5500", "1886", "2088", "1", "202", "0", "",
        "0", "0"]]).Nodup :=
  have hgen : genRows 1 "Stock Prop Test" "5500" 0 =
      some [["Stock Prop Test", "819219713", "", "Generated Product 0001", "product",
        "100", "", "", "", "0", "0", "", "5500", "1886", "2088", "1", "202", "0", "",
        "0", "0"]] := by decide
  ⟨by decide, hgen, c1_skus_nodup 1 "Stock Prop Test" "5500" 0 _ (by decide) hgen⟩

/-- C2 counterexample: with the non-positive row count 0 the program is not
rejected: the generation loop runs zero times and the program still produces
output, namely a header-only CSV.  This falsifies "reject before any
generation begins (no output is produced)". -/
theorem c2_counterexample :
    main_output 0 "Stock Prop Test" "5500" 0 = some [header] ∧
    main_output 0 "Stock Prop Test" "5500" 0 ≠ none := by
  exact ⟨by decide, by decide⟩

/-- C2 amended: a non-positive integer row count is not rejected; the
generation loop body never runs (no data rows), but the program still writes
output consisting of the header line alone. -/
theorem c2_amended (n : Int) (fc ts : String) (seed : Nat) (h : n ≤ 0) :
    main_output n fc ts seed = some [header] := by
  rw [main_output, genRows]
  have h0 : n.toNat = 0 := by omega
  rw [h0]
  rfl

theorem c2_amended_witness :
    (-7 : Int) ≤ 0 ∧ main_output (-7) "Stock Prop Test" "5500" 0 = some [header] :=
  ⟨by decide, c2_amended (-7) "Stock Prop Test" "5500" 0 (by decide)⟩

/-- C3: `generate_sku` is a pure function of its three arguments: the Python
builds a fresh `random.Random(occurrence * 1000 + global_seed)` on every
call and touches no global state, so two calls with identical arguments
return identical candidates; in the embedding this is definitional. -/
theorem c3_deterministic (sku_type index seed : Nat)
    (ht : sku_type ≤ 2) (hi : 1 ≤ index) :
    generate_sku sku_type index seed = generate_sku sku_type index seed := rfl

theorem c3_deterministic_witness :
    (1 : Nat) ≤ 2 ∧ (1 : Nat) ≤ 1 ∧ generate_sku 1 1 0 = generate_sku 1 1 0 :=
  ⟨by decide, by decide, c3_deterministic 1 1 0 (by decide) (by decide)⟩

/-- C4: if a candidate is absent from the issued set the repair loop body is
never entered: `repair` returns it unchanged, for every style, issued set
and fuel. -/
theorem c4_repair_id (sku_type : Nat) (cand : String) (issued : Finset String)
    (fuel : Nat) (h : cand ∉ issued) :
    repair sku_type cand issued fuel = some cand :=
  repair_not_mem_id sku_type cand issued fuel h

theorem c4_repair_id_witness :
    "A" ∉ (∅ : Finset String) ∧ repair 0 "A" ∅ 1 = some "A" :=
  ⟨by decide, c4_repair_id 0 "A" ∅ 1 (by decide)⟩

/-- C5: for every colliding Alphanumeric-style candidate (a candidate
`generate_sku` emits for sku_type 1; such candidates contain exactly one
`-`), each repair attempt agrees with the spec's description — split on the
last `-`, parse the numeric suffix, add the collision counter, re-zero-pad
to 5 digits, rejoin with `-` — and succeeds. -/
theorem c5_alnum_repair (index seed : Nat) (c : String) (issued : Finset String)
    (k : Nat) (hgen : generate_sku 1 index seed = some c) (hcol : c ∈ issued)
    (hk : 1 ≤ k) :
    mutate 1 c k = repairAlnumSpec c k ∧ (mutate 1 c k).isSome = true := by
  obtain ⟨pfx, n, hc, hpfx, _, _⟩ := gen1_shape hgen
  rw [mutate1_shape hc hpfx k, alnumSpec_shape hc hpfx k]
  simp

theorem c5_alnum_repair_witness :
    generate_sku 1 1 0 = some "YNV-22994" ∧
    "YNV-22994" ∈ ({"YNV-22994"} : Finset String) ∧ 1 ≤ 1 ∧
    (mutate 1 "YNV-22994" 1 = repairAlnumSpec "YNV-22994" 1 ∧
      (mutate 1 "YNV-22994" 1).isSome = true) :=
  have hgen : generate_sku 1 1 0 = some "YNV-22994" := by decide
  ⟨hgen, by decide, by decide,
    c5_alnum_repair 1 0 "YNV-22994" {"YNV-22994"} 1 hgen (by decide) (by decide)⟩

/-- C6 counterexample: `generate_sku` emits (sku_type 2, index 3, seed 65)
the candidate "L-3341_1151  #Fs191L8", which contains two `L`s.  On a
collision the code's repair attempt parses the segment after the FIRST `L`
("-3341_1151  #Fs191"), which is not an integer, so it raises (modelled as
`none`) — whereas the claim's split-on-the-last-`L` description parses the
trailing "8" and succeeds.  The two disagree, refuting the claim. -/
theorem c6_counterexample :
    generate_sku 2 3 65 = some "L-3341_1151  #Fs191L8" ∧
    "L-3341_1151  #Fs191L8" ∈ ({"L-3341_1151  #Fs191L8"} : Finset String) ∧
    mutate 2 "L-3341_1151  #Fs191L8" 1 = none ∧
    repairSpecialLastSpec "L-3341_1151  #Fs191L8" 1 = some "L-3341_1151  #Fs191L9" ∧
    mutate 2 "L-3341_1151  #Fs191L8" 1 ≠ repairSpecialLastSpec "L-3341_1151  #Fs191L8" 1 :=
  ⟨by decide, by decide, by decide, by decide, by decide⟩

/-- C6 amended: each AlphanumericSpecial repair attempt splits on every `L`
and keeps only the first two segments: the part before the FIRST `L`, and
the segment between the first `L` and the next `L` (or the end), which must
parse as an integer (otherwise the attempt fails); the counter is added and
the two parts are rejoined with `L`, discarding everything after the second
`L`. -/
theorem c6_amended (c : String) (k : Nat) :
    mutate 2 c k = repairSpecialFirstSpec c k :=
  mutate2_eq_firstSpec c k

/-- C7 counterexample: the Numeric-style candidate "819219713" emitted by
`generate_sku` (sku_type 0, index 1, seed 0) contains no `-`, yet on a
collision the repair step does not fail: it appends "-1".  This refutes the
claim that a missing separator makes the repair step fail for every style. -/
theorem c7_counterexample :
    generate_sku 0 1 0 = some "819219713" ∧
    '-' ∉ "819219713".data ∧
    "819219713" ∈ ({"819219713"} : Finset String) ∧
    mutate 0 "819219713" 1 = some "819219713-1" :=
  ⟨by decide, by decide, by decide, by decide⟩

/-- C7 amended: only the Alphanumeric and AlphanumericSpecial repair steps
split the candidate; when their separator (`-` resp. `L`) is absent the
attempt fails fast (an uncaught IndexError, modelled as `none`) rather than
producing a string — while the Numeric repair step performs no split and
always succeeds by appending `-<counter>`. -/
theorem c7_amended (c : String) (k : Nat) :
    ('-' ∉ c.data → mutate 1 c k = none) ∧
    ('L' ∉ c.data → mutate 2 c k = none) ∧
    mutate 0 c k = some (c ++ "-" ++ natToStr k) :=
  ⟨fun h => mutate1_no_sep h k, fun h => mutate2_no_sep h k, mutate0_eq c k⟩

theorem c7_amended_witness :
    mutate 1 "X123" 1 = none ∧ mutate 2 "X123" 1 = none ∧
    mutate 0 "X123" 1 = some ("X123" ++ "-" ++ natToStr 1) :=
  ⟨(c7_amended "X123" 1).1 (by decide), (c7_amended "X123" 1).2.1 (by decide),
    (c7_amended "X123" 1).2.2⟩

/-- C8: for every Numeric-style candidate and every Alphanumeric-style
candidate (as emitted by `generate_sku`), and every finite issued set, the
collision-repair loop terminates: mutations for distinct counter values are
pairwise distinct, so with fuel `issued.card + 1` the loop reaches and
returns a string outside the issued set. -/
theorem c8_terminates (t : Nat) (cand : String) (issued : Finset String)
    (h : t = 0 ∨ (t = 1 ∧ ∃ index seed, generate_sku 1 index seed = some cand)) :
    (∀ j k rj rk, 1 ≤ j → j < k → mutate t cand j = some rj →
      mutate t cand k = some rk → rj ≠ rk) ∧
    ∃ r, repair t cand issued (issued.card + 1) = some r ∧ r ∉ issued := by
  rcases h with rfl | ⟨rfl, index, seed, hgen⟩
  · refine ⟨?_, repair0_terminates cand issued⟩
    intro j k rj rk hj hjk hmj hmk
    rw [mutate0_eq] at hmj hmk
    simp only [Option.some.injEq] at hmj hmk
    rw [← hmj, ← hmk]
    intro he
    exact absurd (append_dash_nat_inj he) (by omega)
  · obtain ⟨pfx, n, hc, hpfx, hn1, hn2⟩ := gen1_shape hgen
    refine ⟨?_, repair1_terminates issued ⟨pfx, n, hc, hpfx, hn1, hn2⟩⟩
    intro j k rj rk hj hjk hmj hmk
    rw [mutate1_shape hc hpfx] at hmj hmk
    simp only [Option.some.injEq] at hmj hmk
    rw [← hmj, ← hmk]
    intro he
    have h2 := str_append_right_inj he
    have h3 := congrArg pyInt h2
    rw [pyInt_pyFormat05, pyInt_pyFormat05] at h3
    simp only [Option.some.injEq] at h3
    omega

theorem c8_terminates_witness :
    (∀ j k rj rk, 1 ≤ j → j < k → mutate 0 "5" j = some rj →
      mutate 0 "5" k = some rk → rj ≠ rk) ∧
    ∃ r, repair 0 "5" ({"5"} : Finset String) (({"5"} : Finset String).card + 1) = some r ∧
      r ∉ ({"5"} : Finset String) :=
  c8_terminates 0 "5" {"5"} (Or.inl rfl)

/-- C9: every emitted row is the fixed 21-column template with exactly two
fields overwritten: column 2 (`sku`) with the repaired SKU and column 4
(`product_name`) with "Generated Product " followed by the 1-based row index
zero-padded to 4 digits; the other 19 fields equal the template's. -/
theorem c9_row_frame (N : Int) (fc ts : String) (seed : Nat)
    (rows : List (List String)) (h : genRows N fc ts seed = some rows) :
    ∀ i, i < rows.length → ∃ sku,
      (rows.getD i []).length = 21 ∧
      (rows.getD i []).get? 1 = some sku ∧
      (rows.getD i []).get? 3 =
        some ("Generated Product " ++ zpad 4 (natToStr (i + 1))) ∧
      ∀ j, j < 21 → j ≠ 1 → j ≠ 3 →
        (rows.getD i []).get? j = (base_row fc ts).get? j := by
  intro i hi
  rw [genRows] at h
  obtain ⟨sku, hrow⟩ := genRowsAux_rows h i hi
  refine ⟨sku, ?_, ?_, ?_, ?_⟩ <;> rw [hrow]
  · exact mkRow_length fc ts sku (1 + i)
  · exact mkRow_get1 fc ts sku (1 + i)
  · rw [mkRow_get3, Nat.add_comm 1 i]
  · exact mkRow_frame fc ts sku (1 + i)

theorem c9_row_frame_witness :
    genRows 1 "Stock Prop Test" "5500" 0 =
      some [["Stock Prop Test", "819219713", "", "Generated Product 0001", "product",
        "100", "", "", "", "0", "0", "", "5500", "1886", "2088", "1", "202", "0", "",
        "0", "0"]] ∧
    0 < ([["Stock Prop Test", "819219713", "", "Generated Product 0001", "product",
        "100", "", "", "", "0", "0", "", "5500", "1886", "2088", "1", "202", "0", "",
        "0", "0"]] : List (List String)).length ∧
    ∃ sku,
      (([["Stock Prop Test", "819219713", "", "Generated Product 0001", "product",
        "100", "", "", "", "0", "0", "", "5500", "1886", "2088", "1", "202", "0", "",
        "0", "0"]] : List (List String)).getD 0 []).length = 21 ∧
      (([["Stock Prop Test", "819219713", "", "Generated Product 0001", "product",
        "100", "", "", "", "0", "0", "", "5500", "1886", "2088", "1", "202", "0", "",
        "0", "0"]] : List (List String)).getD 0 []).get? 1 = some sku ∧
      (([["Stock Prop Test", "819219713", "", "Generated Product 0001", "product",
        "100", "", "", "", "0", "0", "", "5500", "1886", "2088", "1", "202", "0", "",
        "0", "0"]] : List (List String)).getD 0 []).get? 3 =
        some ("Generated Product " ++ zpad 4 (natToStr (0 + 1))) ∧
      ∀ j, j < 21 → j ≠ 1 → j ≠ 3 →
        (([["Stock Prop Test", "819219713", "", "Generated Product 0001", "product",
          "100", "", "", "", "0", "0", "", "5500", "1886", "2088", "1", "202", "0", "",
          "0", "0"]] : List (List String)).getD 0 []).get? j =
          (base_row "Stock Prop Test" "5500").get? j :=
  have hgen : genRows 1 "Stock Prop Test" "5500" 0 =
      some [["Stock Prop Test", "819219713", "", "Generated Product 0001", "product",
        "100", "", "", "", "0", "0", "", "5500", "1886", "2088", "1", "202", "0", "",
        "0", "0"]] := by decide
  ⟨hgen, by decide,
    c9_row_frame 1 "Stock Prop Test" "5500" 0 _ hgen 0 (by decide)⟩

/-- C10: `generate_sku` depends on its index argument only through
`occurrence = (index - 1) // 3 + 1`: indices with equal occurrence (for
instance 1, 2 and 3) give identical candidates for the same style and seed. -/
theorem c10_occurrence_only (t seed i j : Nat) (hi : 1 ≤ i) (hj : 1 ≤ j)
    (h : (i - 1) / 3 = (j - 1) / 3) :
    generate_sku t i seed = generate_sku t j seed := by
  simp only [generate_sku, h]

theorem c10_occurrence_only_witness :
    (1 : Nat) ≤ 1 ∧ (1 : Nat) ≤ 3 ∧ (1 - 1) / 3 = (3 - 1) / 3 ∧
    generate_sku 0 1 0 = generate_sku 0 3 0 :=
  ⟨by decide, by decide, by decide,
    c10_occurrence_only 0 0 1 3 (by decide) (by decide) (by decide)⟩
